import Mathlib

/-
Verification development for the bsoncv BSON-to-JSON transcoder
(bsoncv/bsoncv.go, function ToJson) and the mongo driver wrapper
(package store, Collection.FindOne).

Bytes are modelled as Nat (values 0..255); byte buffers as List Nat.
Go runtime panics (index out of range on the input, on the output, or on
the fixed 64-byte nesting stack) are modelled explicitly: every array or
slice access carries its Go bounds check, and a failed check produces a
distinguished panic outcome instead of a value.

Character codes used throughout: 34 quote, 44 comma, 58 colon,
91 opening bracket, 92 backslash, 93 closing bracket, 123 opening brace,
125 closing brace.

Type-tag bytes from bsoncv.go:
  1 Float64, 2 String, 3 Object, 4 Array, 7 ObjectId, 8 Boolean,
  9 UnixTimeMillis, 10 Null, 16 Int32, 17 Time, 18 Int64, 19 Dec128,
  0 Terminal.
-/

set_option autoImplicit false
set_option maxRecDepth 100000

namespace Bsoncv

/-- Little-endian value of a byte list (first byte least significant),
as binary.LittleEndian.Uint32 and Uint64 read their slices. -/
def leVal : List Nat → Nat
  | [] => 0
  | c :: rest => c + 256 * leVal rest

/-- The Go expression binary.LittleEndian.UintN(bsonbytes[i : i+n]):
none models the runtime panic when the slice bsonbytes[i : i+n] reaches
past the end of the buffer. -/
def readLE (b : List Nat) (i n : Nat) : Option Nat :=
  if i + n ≤ b.length then some (leVal ((b.drop i).take n)) else none

/-- Helper for findTerm, scanning a suffix of the buffer while carrying
the absolute position of its head. -/
def findTermAux : List Nat → Nat → Option Nat
  | [], _ => none
  | c :: rest, i => if c = 0 then some i else findTermAux rest (i + 1)

/-- The field-name scan in every case of the ToJson switch
(end := idx; for bsonbytes[end] != Terminal ... end++): the first
position j at or after i with b[j] = 0. none models the index-out-of-range
panic when the scan runs off the end of the buffer. -/
def findTerm (b : List Nat) (i : Nat) : Option Nat :=
  findTermAux (b.drop i) i

/-- One byte of the escape loop in the String case of ToJson: the
double quote, newline, tab, backslash and carriage-return bytes become
two-byte backslash escapes, every other byte is copied unchanged. -/
def escapeByte (c : Nat) : List Nat :=
  if c = 34 then [92, 34]
  else if c = 10 then [92, 110]
  else if c = 9 then [92, 116]
  else if c = 92 then [92, 92]
  else if c = 13 then [92, 114]
  else [c]

/-- The full escape loop of the String case, applied to the raw payload
bytes (the length-1 bytes before the terminating null). -/
def escapeString (p : List Nat) : List Nat :=
  p.flatMap escapeByte

/-- Helper for formatUint: produce the decimal digits of n in front of
acc; the fuel argument only drives the recursion and is always given
large enough to be irrelevant. -/
def formatUintAux : Nat → Nat → List Nat → List Nat
  | 0, _, acc => acc
  | fuel + 1, n, acc =>
    if n < 10 then (48 + n) :: acc
    else formatUintAux fuel (n / 10) ((48 + n % 10) :: acc)

/-- strconv.FormatUint(v, 10) as a byte list: the plain unsigned decimal
digits of v, no sign, no leading zeros (a single 48 for v = 0). -/
def formatUint (v : Nat) : List Nat :=
  formatUintAux (v + 1) v []

/-- One lowercase hexadecimal digit, as used by hex.EncodeToString. -/
def hexDigit (n : Nat) : Nat :=
  if n < 10 then 48 + n else 87 + n

/-- hex.EncodeToString as a byte list: two lowercase hex digits per
input byte. -/
def hexEncode (l : List Nat) : List Nat :=
  l.flatMap (fun c => [hexDigit (c / 16), hexDigit (c % 16)])

/-- The repeated field-name block of every value case in ToJson: when the
top of the stack is the closing-brace byte (an object frame), emit the
quoted field name followed by a colon; inside an array frame (top is the
closing-bracket byte) emit nothing. -/
def emitName (top : Nat) (name : List Nat) : List Nat :=
  if top = 125 then 34 :: (name ++ [34, 58]) else []

/-- The loop state of ToJson: read cursor idx, output buffer out, the
64-byte stack array (as a function on indices) and the stack pointer.
The pointer is an Int because the Go int is decremented on every terminal
byte and can reach -1; any stack access at that point would panic. -/
structure DecState where
  idx : Nat
  out : List Nat
  stk : Nat → Nat
  sp : Int

/-- Reading stack[sp]: the Go access panics unless 0 ≤ sp < 64. -/
def stkGet (stk : Nat → Nat) (sp : Int) : Option Nat :=
  if 0 ≤ sp ∧ sp < 64 then some (stk sp.toNat) else none

/-- Writing stack[sp]: the Go access panics unless 0 ≤ sp < 64. -/
def stkSet (stk : Nat → Nat) (sp : Int) (v : Nat) : Option (Nat → Nat) :=
  if 0 ≤ sp ∧ sp < 64 then some (Function.update stk sp.toNat v) else none

/-- Outcome of one iteration of the decode loop. -/
inductive StepRes where
  /-- The loop continues with the given state. -/
  | next (s : DecState)
  /-- The default case of the switch: fmt.Println of the tag byte,
  then return of the buffer accumulated so far (the only early return). -/
  | ret (tag : Nat) (out : List Nat)
  /-- The Time and Dec128 cases: panic(jsonbytes), carrying the buffer
  accumulated so far. -/
  | panicB (out : List Nat)
  /-- A Go runtime index-out-of-range panic on the input buffer or on
  the nesting stack. -/
  | oob

/-- Outcome of a whole ToJson call. -/
inductive Res where
  /-- Normal return of the finished buffer. -/
  | ok (out : List Nat)
  /-- The default switch case was hit: the tag byte was printed to
  stdout and the partial buffer was returned as the ordinary result
  (ToJson has no error return value). -/
  | printedReturn (tag : Nat) (out : List Nat)
  /-- panic(jsonbytes) from the Time or Dec128 case: the process aborts. -/
  | panicked (out : List Nat)
  /-- A runtime index-out-of-range panic: the process aborts. -/
  | indexPanic
  /-- Fuel exhaustion artifact of the embedding; never reached with the
  fuel ToJson supplies, since every iteration advances the cursor. -/
  | fuelOut
deriving DecidableEq

/-- The Float64 case of the ToJson switch (tag 1): scan the field name,
emit it when inside an object frame, read 8 payload bytes little-endian
and emit the text produced by the float formatter. -/
def caseFloat64 (ff : Nat → List Nat) (b : List Nat) (s : DecState) : StepRes :=
  match findTerm b (s.idx + 1) with
  | none => StepRes.oob
  | some e =>
    match stkGet s.stk s.sp with
    | none => StepRes.oob
    | some top =>
      let nm := emitName top ((b.drop (s.idx + 1)).take (e - (s.idx + 1)))
      match readLE b (e + 1) 8 with
      | none => StepRes.oob
      | some v => StepRes.next { s with idx := e + 9, out := s.out ++ nm ++ ff v }

/-- The String case of the ToJson switch (tag 2): scan and maybe emit the
field name, read the 4-byte length prefix, then emit a double quote, the
escaped length-1 payload bytes, and a closing double quote. The guard
models the Go escape loop reading bsonbytes[i] for i up to
idx + length - 2, which panics past the end of the buffer. -/
def caseString (b : List Nat) (s : DecState) : StepRes :=
  match findTerm b (s.idx + 1) with
  | none => StepRes.oob
  | some e =>
    match stkGet s.stk s.sp with
    | none => StepRes.oob
    | some top =>
      let nm := emitName top ((b.drop (s.idx + 1)).take (e - (s.idx + 1)))
      match readLE b (e + 1) 4 with
      | none => StepRes.oob
      | some len =>
        if e + 5 + (len - 1) ≤ b.length then
          StepRes.next
            { s with
              idx := e + 5 + len,
              out := s.out ++ nm ++ [34] ++ escapeString ((b.drop (e + 5)).take (len - 1)) ++ [34] }
        else StepRes.oob

/-- The Object case of the ToJson switch (tag 3): scan and maybe emit the
field name, emit an opening brace, push a closing-brace frame, and skip
the 4 unused length-prefix bytes. The push is stack[stackptr] after
stackptr++ and panics when the new pointer reaches 64. -/
def caseObject (b : List Nat) (s : DecState) : StepRes :=
  match findTerm b (s.idx + 1) with
  | none => StepRes.oob
  | some e =>
    match stkGet s.stk s.sp with
    | none => StepRes.oob
    | some top =>
      let nm := emitName top ((b.drop (s.idx + 1)).take (e - (s.idx + 1)))
      match stkSet s.stk (s.sp + 1) 125 with
      | none => StepRes.oob
      | some stk2 =>
        StepRes.next { idx := e + 5, out := s.out ++ nm ++ [123], stk := stk2, sp := s.sp + 1 }

/-- The Array case of the ToJson switch (tag 4): like caseObject but the
emitted delimiter is an opening bracket and the pushed frame closes with
a closing bracket. -/
def caseArray (b : List Nat) (s : DecState) : StepRes :=
  match findTerm b (s.idx + 1) with
  | none => StepRes.oob
  | some e =>
    match stkGet s.stk s.sp with
    | none => StepRes.oob
    | some top =>
      let nm := emitName top ((b.drop (s.idx + 1)).take (e - (s.idx + 1)))
      match stkSet s.stk (s.sp + 1) 93 with
      | none => StepRes.oob
      | some stk2 =>
        StepRes.next { idx := e + 5, out := s.out ++ nm ++ [91], stk := stk2, sp := s.sp + 1 }

/-- The ObjectId case of the ToJson switch (tag 7): scan and maybe emit
the field name, then emit the 12 payload bytes hex-encoded inside double
quotes. The guard models the slice bsonbytes[idx : idx+12]. -/
def caseObjectId (b : List Nat) (s : DecState) : StepRes :=
  match findTerm b (s.idx + 1) with
  | none => StepRes.oob
  | some e =>
    match stkGet s.stk s.sp with
    | none => StepRes.oob
    | some top =>
      let nm := emitName top ((b.drop (s.idx + 1)).take (e - (s.idx + 1)))
      if e + 13 ≤ b.length then
        StepRes.next
          { s with
            idx := e + 13,
            out := s.out ++ nm ++ [34] ++ hexEncode ((b.drop (e + 1)).take 12) ++ [34] }
      else StepRes.oob

/-- The Boolean case of the ToJson switch (tag 8): scan and maybe emit
the field name, then emit the bytes of true when the payload byte is 1
and of false otherwise. -/
def caseBoolean (b : List Nat) (s : DecState) : StepRes :=
  match findTerm b (s.idx + 1) with
  | none => StepRes.oob
  | some e =>
    match stkGet s.stk s.sp with
    | none => StepRes.oob
    | some top =>
      let nm := emitName top ((b.drop (s.idx + 1)).take (e - (s.idx + 1)))
      match b[e + 1]? with
      | none => StepRes.oob
      | some v =>
        StepRes.next
          { s with
            idx := e + 2,
            out := s.out ++ nm ++ (if v = 1 then [116, 114, 117, 101] else [102, 97, 108, 115, 101]) }

/-- The UnixTimeMillis case of the ToJson switch (tag 9): scan and maybe
emit the field name, read 8 payload bytes little-endian and emit the text
produced by the time formatter inside double quotes (the quotes are
appended by ToJson itself, around the library-formatted timestamp). -/
def caseUnixTimeMillis (ft : Nat → List Nat) (b : List Nat) (s : DecState) : StepRes :=
  match findTerm b (s.idx + 1) with
  | none => StepRes.oob
  | some e =>
    match stkGet s.stk s.sp with
    | none => StepRes.oob
    | some top =>
      let nm := emitName top ((b.drop (s.idx + 1)).take (e - (s.idx + 1)))
      match readLE b (e + 1) 8 with
      | none => StepRes.oob
      | some v => StepRes.next { s with idx := e + 9, out := s.out ++ nm ++ [34] ++ ft v ++ [34] }

/-- The Null case of the ToJson switch (tag 10): scan and maybe emit the
field name, then emit the four bytes of null; there are no payload
bytes. -/
def caseNull (b : List Nat) (s : DecState) : StepRes :=
  match findTerm b (s.idx + 1) with
  | none => StepRes.oob
  | some e =>
    match stkGet s.stk s.sp with
    | none => StepRes.oob
    | some top =>
      let nm := emitName top ((b.drop (s.idx + 1)).take (e - (s.idx + 1)))
      StepRes.next { s with idx := e + 1, out := s.out ++ nm ++ [110, 117, 108, 108] }

/-- The Int32 case of the ToJson switch (tag 16): scan and maybe emit the
field name, read 4 payload bytes little-endian and emit
strconv.FormatUint of the raw unsigned 32-bit value — the signed
two's-complement value is never reconstructed. -/
def caseInt32 (b : List Nat) (s : DecState) : StepRes :=
  match findTerm b (s.idx + 1) with
  | none => StepRes.oob
  | some e =>
    match stkGet s.stk s.sp with
    | none => StepRes.oob
    | some top =>
      let nm := emitName top ((b.drop (s.idx + 1)).take (e - (s.idx + 1)))
      match readLE b (e + 1) 4 with
      | none => StepRes.oob
      | some v => StepRes.next { s with idx := e + 5, out := s.out ++ nm ++ formatUint v }

/-- The Int64 case of the ToJson switch (tag 18): like caseInt32 with an
8-byte payload, again formatted as the raw unsigned 64-bit value. -/
def caseInt64 (b : List Nat) (s : DecState) : StepRes :=
  match findTerm b (s.idx + 1) with
  | none => StepRes.oob
  | some e =>
    match stkGet s.stk s.sp with
    | none => StepRes.oob
    | some top =>
      let nm := emitName top ((b.drop (s.idx + 1)).take (e - (s.idx + 1)))
      match readLE b (e + 1) 8 with
      | none => StepRes.oob
      | some v => StepRes.next { s with idx := e + 9, out := s.out ++ nm ++ formatUint v }

/-- The Terminal case of the ToJson switch (byte 0): advance past the
terminal byte, emit the closing delimiter stored in the top frame, clear
that slot and decrement the stack pointer. -/
def caseTerminal (s : DecState) : StepRes :=
  match stkGet s.stk s.sp with
  | none => StepRes.oob
  | some top =>
    match stkSet s.stk s.sp 0 with
    | none => StepRes.oob
    | some stk2 =>
      StepRes.next { idx := s.idx + 1, out := s.out ++ [top], stk := stk2, sp := s.sp - 1 }

/-- The switch of the ToJson decode loop, dispatching on the type-tag
byte at the cursor. Tags 17 (Time) and 19 (Dec128) are panic(jsonbytes);
an unrecognized tag is the default case: fmt.Println of the tag followed
by return of the partial buffer. none from the cursor read models the
loop-guard violation and is unreachable from run. -/
def switchStep (ff ft : Nat → List Nat) (b : List Nat) (s : DecState) : StepRes :=
  match b[s.idx]? with
  | none => StepRes.oob
  | some t =>
    if t = 1 then caseFloat64 ff b s
    else if t = 2 then caseString b s
    else if t = 3 then caseObject b s
    else if t = 4 then caseArray b s
    else if t = 7 then caseObjectId b s
    else if t = 8 then caseBoolean b s
    else if t = 9 then caseUnixTimeMillis ft b s
    else if t = 10 then caseNull b s
    else if t = 16 then caseInt32 b s
    else if t = 17 then StepRes.panicB s.out
    else if t = 18 then caseInt64 b s
    else if t = 19 then StepRes.panicB s.out
    else if t = 0 then caseTerminal s
    else StepRes.ret t s.out

/-- The comma insertion after the switch: append a comma exactly when
input remains, the next input byte is not the terminal byte, and the most
recently emitted byte is neither an opening brace nor an opening
bracket. -/
def withComma (b : List Nat) (s : DecState) : DecState :=
  if s.idx < b.length ∧ b[s.idx]? ≠ some 0 ∧
      s.out.getLast? ≠ some 123 ∧ s.out.getLast? ≠ some 91 then
    { s with out := s.out ++ [44] }
  else s

/-- One full iteration of the decode loop: the switch followed, on the
continuing path, by the comma insertion. -/
def step (ff ft : Nat → List Nat) (b : List Nat) (s : DecState) : StepRes :=
  match switchStep ff ft b s with
  | StepRes.next s1 => StepRes.next (withComma b s1)
  | r => r

/-- The decode loop for idx < len(bsonbytes), driven by fuel; every
iteration advances the cursor by at least one, so the fuel supplied by
ToJson can never run out before the loop guard fails. -/
def run (ff ft : Nat → List Nat) (b : List Nat) : Nat → DecState → Res
  | 0, _ => Res.fuelOut
  | fuel + 1, s =>
    if s.idx < b.length then
      match step ff ft b s with
      | StepRes.next s1 => run ff ft b fuel s1
      | StepRes.ret t o => Res.printedReturn t o
      | StepRes.panicB o => Res.panicked o
      | StepRes.oob => Res.indexPanic
    else Res.ok s.out

/-- The initial stack: var stack [64]byte zero-initialized, then
stack[0] = the closing-brace byte for the top-level document. -/
def initStack : Nat → Nat :=
  fun i => if i = 0 then 125 else 0

/-- The state on entry to the decode loop: cursor past the 4-byte length
prefix, buffer holding the opening brace, stack pointer 0. -/
def initState : DecState :=
  { idx := 4, out := [123], stk := initStack, sp := 0 }

/-- Shallow embedding of bsoncv.ToJson. The parameters ff and ft stand
for the two Go standard-library formatters the function calls, which are
external to this repository: ff for
strconv.FormatFloat(math.Float64frombits(v), 102, -1, 64) and ft for
time.Unix(0, int64(v)*1000000).Format(time.RFC3339Nano), each taking the
raw little-endian 8-byte payload value and returning text bytes. No
claim depends on their output, and every theorem below holds for all
values of these parameters. -/
def ToJson (ff ft : Nat → List Nat) (b : List Nat) : Res :=
  if b.length = 0 then Res.ok b
  else run ff ft b (b.length + 1) initState

/-- The byte an escape pair backslash-d decodes to under standard JSON
unescaping, for the five escapes the transcoder produces. -/
def unescPair (d : Nat) : Nat :=
  if d = 34 then 34
  else if d = 110 then 10
  else if d = 116 then 9
  else if d = 92 then 92
  else if d = 114 then 13
  else d

/-- Modelled from the spec: the standard JSON string unescaping that the
spec says must recover the original payload bytes from the emitted quoted
string. The unescaper itself is not code of this repository; it maps a
backslash followed by one of the five escape letters back to the escaped
byte and copies every other byte unchanged. -/
def jsonUnescape : List Nat → List Nat
  | [] => []
  | [c] => [c]
  | c :: d :: rest =>
    if c = 92 ∧ (d = 34 ∨ d = 110 ∨ d = 116 ∨ d = 92 ∨ d = 114) then
      unescPair d :: jsonUnescape rest
    else c :: jsonUnescape (d :: rest)

/-- The text a recognized element contributes to the output as a function
of its tag byte and its payload bytes alone — the field name does not
occur. Used to state that elements inside an array frame contribute
exactly their value text. -/
def valueEmit (ff ft : Nat → List Nat) (t : Nat) (pay : List Nat) : List Nat :=
  if t = 1 then ff (leVal pay)
  else if t = 2 then [34] ++ escapeString pay ++ [34]
  else if t = 3 then [123]
  else if t = 4 then [91]
  else if t = 7 then [34] ++ hexEncode pay ++ [34]
  else if t = 8 then (if pay = [1] then [116, 114, 117, 101] else [102, 97, 108, 115, 101])
  else if t = 9 then [34] ++ ft (leVal pay) ++ [34]
  else if t = 10 then [110, 117, 108, 108]
  else if t = 16 then formatUint (leVal pay)
  else if t = 18 then formatUint (leVal pay)
  else []

/-- The payload bytes of the element whose field name ends with the
terminal byte at position e, as a function of the tag: every byte read
lies strictly after position e, so the slice never overlaps the field
name. -/
def payloadSlice (b : List Nat) (t e : Nat) : List Nat :=
  if t = 1 then (b.drop (e + 1)).take 8
  else if t = 2 then (b.drop (e + 5)).take (leVal ((b.drop (e + 1)).take 4) - 1)
  else if t = 7 then (b.drop (e + 1)).take 12
  else if t = 8 then (b.drop (e + 1)).take 1
  else if t = 9 then (b.drop (e + 1)).take 8
  else if t = 16 then (b.drop (e + 1)).take 4
  else if t = 18 then (b.drop (e + 1)).take 8
  else []

/-- A document body holding a single Object element named a (byte 97)
nested k levels further; nestBody 0 is just the terminal byte of the
innermost empty document. The four length-prefix bytes of each nested
document are zero: ToJson skips them without reading. -/
def nestBody : Nat → List Nat
  | 0 => [0]
  | k + 1 => [3, 97, 0, 0, 0, 0, 0] ++ nestBody k ++ [0]

/-- A whole binary document whose containers nest k + 1 levels deep: the
top-level document plus k nested Object elements. -/
def deepDoc (k : Nat) : List Nat :=
  [0, 0, 0, 0] ++ nestBody k

/-- The output ToJson produces for deepDoc k when no panic occurs: the
top-level opening brace, k copies of a quoted name a, a colon and an
opening brace, then k + 1 closing braces. -/
def deepOut (k : Nat) : List Nat :=
  [123] ++ (List.replicate k [34, 97, 34, 58, 123]).flatten ++ List.replicate (k + 1) 125

/-- The text emitted by k nested object openings of the deep document:
k copies of the quoted name a, a colon and an opening brace. -/
def openText (k : Nat) : List Nat :=
  (List.replicate k [34, 97, 34, 58, 123]).flatten

/-- A concrete formatter instance for witnesses; the claims hold for
every formatter, so the trivial one suffices. -/
def emptyFmt : Nat → List Nat :=
  fun _ => []

/-- A concrete stack whose slot 0 holds the closing-bracket byte: the
stack of a decode positioned directly inside an array frame. Used by
witnesses. -/
def arrStack : Nat → Nat :=
  fun i => if i = 0 then 93 else 0

end Bsoncv

namespace Store

/-- The error value the underlying mongo driver reports from
SingleResult.Err: the distinguished ErrNoDocuments sentinel or any other
driver error, identified by its message bytes. The driver itself is
external to this repository; part_001 only compares the reported error
against the sentinel. -/
inductive MongoErr where
  | errNoDocuments
  | otherErr (msg : List Nat)
deriving DecidableEq

/-- An error as returned by the wrapper to its caller:
errors.WithStack around the underlying driver error. -/
inductive WrapErr where
  | withStack (e : MongoErr)
deriving DecidableEq

/-- Shallow embedding of Collection.FindOne from the store package: the
underlying SingleResult is characterized by its Err value. The wrapper
always returns a decoder wrapping that same SingleResult (first
component) together with the error handed to the caller (second
component): nil when the driver reported no error or reported exactly
ErrNoDocuments, and the stack-wrapped driver error otherwise. -/
def FindOne (srErr : Option MongoErr) : Option MongoErr × Option WrapErr :=
  match srErr with
  | none => (srErr, none)
  | some e =>
    if e = MongoErr.errNoDocuments then (srErr, none)
    else (srErr, some (WrapErr.withStack e))

end Store

namespace Bsoncv

/-- Claim C10: for the zero-length input byte sequence the transcoder
returns a zero-length output without error — the empty-input guard
returns the input itself, emitting neither an opening nor a closing
brace, for every choice of the external formatters. -/
theorem c10_empty_input_empty_output :
    ∀ ff ft : Nat → List Nat, ToJson ff ft [] = Res.ok [] :=
  fun _ _ => rfl

/-- Claim C8: decoding the well-formed empty document — any 4-byte length
prefix followed by the single terminal byte — yields exactly the
two-byte output of an opening brace followed by a closing brace. The
length prefix is never read, so the result holds for arbitrary prefix
bytes. -/
theorem c8_empty_document_yields_braces (ff ft : Nat → List Nat) (p q r u : Nat) :
    ToJson ff ft [p, q, r, u, 0] = Res.ok [123, 125] :=
  rfl

/-- Claim C1 is false on the code (code bug): the Int32 and Int64 cases
format the little-endian payload with strconv.FormatUint, so the
all-ones payload — the two's-complement encoding of -1 — is emitted as
the unsigned magnitudes 4294967295 and 18446744073709551615 instead of
-1: the digit bytes below spell those unsigned decimals, with no minus
sign. -/
theorem c1_negative_int_rendered_unsigned (ff ft : Nat → List Nat) :
    ToJson ff ft [12, 0, 0, 0, 16, 97, 0, 255, 255, 255, 255, 0]
      = Res.ok [123, 34, 97, 34, 58, 52, 50, 57, 52, 57, 54, 55, 50, 57, 53, 125]
    ∧ ToJson ff ft [16, 0, 0, 0, 18, 97, 0, 255, 255, 255, 255, 255, 255, 255, 255, 0]
      = Res.ok ([123, 34, 97, 34, 58]
          ++ [49, 56, 52, 52, 54, 55, 52, 52, 48, 55, 51, 55, 48, 57, 53, 53, 49, 54, 49, 53]
          ++ [125]) :=
  ⟨rfl, rfl⟩

/-- Claim C2 is false on the code (code bug): on the unrecognized tag
byte 5 the default case prints the tag and returns the partial buffer —
here the already-transcoded first element and its trailing comma — as
the ordinary successful result; ToJson has no error channel at all. -/
theorem c2_unknown_tag_returns_partial (ff ft : Nat → List Nat) :
    ToJson ff ft [9, 0, 0, 0, 10, 97, 0, 5, 0]
      = Res.printedReturn 5 [123, 34, 97, 34, 58, 110, 117, 108, 108, 44] :=
  rfl

/-- Claim C3 is false on the code (code bug): a Dec128 element (tag 19)
or a legacy Time element (tag 17) makes ToJson call panic(jsonbytes)
immediately — a process abort, not a typed error returned to the
caller. The payload is indeed never decoded: the panic fires before the
field name is even scanned. -/
theorem c3_dec128_and_time_panic (ff ft : Nat → List Nat) :
    ToJson ff ft [8, 0, 0, 0, 19, 97, 0, 0] = Res.panicked [123]
    ∧ ToJson ff ft [8, 0, 0, 0, 17, 97, 0, 0] = Res.panicked [123] :=
  ⟨rfl, rfl⟩

/-- Unescaping the escape of one byte placed in front of any tail
unescapes to that byte followed by the unescaped tail: each of the five
special bytes becomes its two-byte escape, which jsonUnescape folds back;
any other byte is copied verbatim and, not being a backslash, is left
alone by jsonUnescape. -/
theorem jsonUnescape_escapeByte (c : Nat) (rest : List Nat) :
    jsonUnescape (escapeByte c ++ rest) = c :: jsonUnescape rest := by
  unfold escapeByte
  split_ifs with h1 h2 h3 h4 h5
  · subst h1; simp [jsonUnescape, unescPair]
  · subst h2; simp [jsonUnescape, unescPair]
  · subst h3; simp [jsonUnescape, unescPair]
  · subst h4; simp [jsonUnescape, unescPair]
  · subst h5; simp [jsonUnescape, unescPair]
  · cases rest with
    | nil => simp [jsonUnescape]
    | cons d rest2 => simp [jsonUnescape, h4]

/-- Standard JSON unescaping is a left inverse of the transcoder's
escape loop on every payload byte sequence. -/
theorem jsonUnescape_escapeString (p : List Nat) :
    jsonUnescape (escapeString p) = p := by
  induction p with
  | nil => rfl
  | cons c q ih =>
    have hs : escapeString (c :: q) = escapeByte c ++ escapeString q := by
      simp [escapeString]
    rw [hs, jsonUnescape_escapeByte, ih]

/-- Claim C5: a string element is emitted as its (possibly empty) field
name part followed by the payload bytes wrapped in double quotes with
the escape loop applied — and applying the standard JSON unescaping to
the escaped payload recovers the original payload bytes exactly. -/
theorem c5_string_escape_roundtrip (ff ft : Nat → List Nat) (b : List Nat) (s : DecState)
    (e len top : Nat)
    (htag : b[s.idx]? = some 2)
    (hterm : findTerm b (s.idx + 1) = some e)
    (htop : stkGet s.stk s.sp = some top)
    (hlen : readLE b (e + 1) 4 = some len)
    (hbound : e + 5 + (len - 1) ≤ b.length) :
    switchStep ff ft b s
      = StepRes.next
          { s with
            idx := e + 5 + len,
            out := s.out ++ emitName top ((b.drop (s.idx + 1)).take (e - (s.idx + 1)))
              ++ [34] ++ escapeString ((b.drop (e + 5)).take (len - 1)) ++ [34] }
    ∧ jsonUnescape (escapeString ((b.drop (e + 5)).take (len - 1)))
        = (b.drop (e + 5)).take (len - 1) := by
  constructor
  · simp [switchStep, htag, caseString, hterm, htop, hlen, hbound]
  · exact jsonUnescape_escapeString _

/-- Witness for c5_string_escape_roundtrip: a concrete document whose
single string element has field name a and payload containing a double
quote, a backslash, a newline, a tab and a carriage return; every
hypothesis holds by computation, and the emitted bytes are the quoted,
escaped payload. -/
theorem c5_string_escape_roundtrip_witness :
    switchStep emptyFmt emptyFmt
        [19, 0, 0, 0, 2, 97, 0, 6, 0, 0, 0, 34, 92, 10, 9, 13, 0, 0] initState
      = StepRes.next
          { initState with
            idx := 17,
            out := [123, 34, 97, 34, 58, 34, 92, 34, 92, 92, 92, 110, 92, 116, 92, 114, 34] }
    ∧ jsonUnescape (escapeString
        ((([19, 0, 0, 0, 2, 97, 0, 6, 0, 0, 0, 34, 92, 10, 9, 13, 0, 0] : List Nat).drop 11).take 5))
        = (([19, 0, 0, 0, 2, 97, 0, 6, 0, 0, 0, 34, 92, 10, 9, 13, 0, 0] : List Nat).drop 11).take 5 :=
  c5_string_escape_roundtrip emptyFmt emptyFmt
    [19, 0, 0, 0, 2, 97, 0, 6, 0, 0, 0, 34, 92, 10, 9, 13, 0, 0] initState
    6 6 125 rfl rfl rfl rfl (by decide)

/-- Unfolding the dispatch of the switch once the tag byte at the cursor
is known: the switch is exactly this if-chain on the tag. -/
theorem switchStep_eq_of_tag (ff ft : Nat → List Nat) (b : List Nat) (s : DecState) (t : Nat)
    (htag : b[s.idx]? = some t) :
    switchStep ff ft b s =
      (if t = 1 then caseFloat64 ff b s
      else if t = 2 then caseString b s
      else if t = 3 then caseObject b s
      else if t = 4 then caseArray b s
      else if t = 7 then caseObjectId b s
      else if t = 8 then caseBoolean b s
      else if t = 9 then caseUnixTimeMillis ft b s
      else if t = 10 then caseNull b s
      else if t = 16 then caseInt32 b s
      else if t = 17 then StepRes.panicB s.out
      else if t = 18 then caseInt64 b s
      else if t = 19 then StepRes.panicB s.out
      else if t = 0 then caseTerminal s
      else StepRes.ret t s.out) := by
  unfold switchStep
  rw [htag]

/-- A continuing Float64 case determines the name scan, the stack read
and the successor state completely. -/
theorem caseFloat64_next (ff : Nat → List Nat) (b : List Nat) (s s1 : DecState)
    (hstep : caseFloat64 ff b s = StepRes.next s1) :
    ∃ e top, findTerm b (s.idx + 1) = some e ∧ stkGet s.stk s.sp = some top ∧
      s1 = { s with
              idx := e + 9,
              out := s.out ++ emitName top ((b.drop (s.idx + 1)).take (e - (s.idx + 1)))
                ++ ff (leVal ((b.drop (e + 1)).take 8)) } := by
  unfold caseFloat64 at hstep
  split at hstep
  · cases hstep
  rename_i e hfe
  split at hstep
  · cases hstep
  rename_i top htop
  split at hstep
  · cases hstep
  rename_i v hlv
  cases hstep
  refine ⟨e, top, hfe, htop, ?_⟩
  unfold readLE at hlv
  split at hlv
  · cases hlv; rfl
  · cases hlv

/-- A continuing String case determines the name scan, the stack read,
the length prefix and the successor state completely. -/
theorem caseString_next (b : List Nat) (s s1 : DecState)
    (hstep : caseString b s = StepRes.next s1) :
    ∃ e top, findTerm b (s.idx + 1) = some e ∧ stkGet s.stk s.sp = some top ∧
      s1 = { s with
              idx := e + 5 + leVal ((b.drop (e + 1)).take 4),
              out := s.out ++ emitName top ((b.drop (s.idx + 1)).take (e - (s.idx + 1)))
                ++ [34]
                ++ escapeString ((b.drop (e + 5)).take (leVal ((b.drop (e + 1)).take 4) - 1))
                ++ [34] } := by
  unfold caseString at hstep
  split at hstep
  · cases hstep
  rename_i e hfe
  split at hstep
  · cases hstep
  rename_i top htop
  split at hstep
  · cases hstep
  rename_i len hlv
  split at hstep
  · cases hstep
    refine ⟨e, top, hfe, htop, ?_⟩
    unfold readLE at hlv
    split at hlv
    · cases hlv; rfl
    · cases hlv
  · cases hstep

/-- A continuing Object case determines the name scan, the stack read,
the push and the successor state completely. -/
theorem caseObject_next (b : List Nat) (s s1 : DecState)
    (hstep : caseObject b s = StepRes.next s1) :
    ∃ e top stk2, findTerm b (s.idx + 1) = some e ∧ stkGet s.stk s.sp = some top ∧
      stkSet s.stk (s.sp + 1) 125 = some stk2 ∧
      s1 = { idx := e + 5,
             out := s.out ++ emitName top ((b.drop (s.idx + 1)).take (e - (s.idx + 1))) ++ [123],
             stk := stk2,
             sp := s.sp + 1 } := by
  unfold caseObject at hstep
  split at hstep
  · cases hstep
  rename_i e hfe
  split at hstep
  · cases hstep
  rename_i top htop
  split at hstep
  · cases hstep
  rename_i stk2 hset
  cases hstep
  exact ⟨e, top, stk2, hfe, htop, hset, rfl⟩

/-- A continuing Array case determines the name scan, the stack read,
the push and the successor state completely. -/
theorem caseArray_next (b : List Nat) (s s1 : DecState)
    (hstep : caseArray b s = StepRes.next s1) :
    ∃ e top stk2, findTerm b (s.idx + 1) = some e ∧ stkGet s.stk s.sp = some top ∧
      stkSet s.stk (s.sp + 1) 93 = some stk2 ∧
      s1 = { idx := e + 5,
             out := s.out ++ emitName top ((b.drop (s.idx + 1)).take (e - (s.idx + 1))) ++ [91],
             stk := stk2,
             sp := s.sp + 1 } := by
  unfold caseArray at hstep
  split at hstep
  · cases hstep
  rename_i e hfe
  split at hstep
  · cases hstep
  rename_i top htop
  split at hstep
  · cases hstep
  rename_i stk2 hset
  cases hstep
  exact ⟨e, top, stk2, hfe, htop, hset, rfl⟩

/-- A continuing ObjectId case determines the name scan, the stack read
and the successor state completely. -/
theorem caseObjectId_next (b : List Nat) (s s1 : DecState)
    (hstep : caseObjectId b s = StepRes.next s1) :
    ∃ e top, findTerm b (s.idx + 1) = some e ∧ stkGet s.stk s.sp = some top ∧
      s1 = { s with
              idx := e + 13,
              out := s.out ++ emitName top ((b.drop (s.idx + 1)).take (e - (s.idx + 1)))
                ++ [34] ++ hexEncode ((b.drop (e + 1)).take 12) ++ [34] } := by
  unfold caseObjectId at hstep
  split at hstep
  · cases hstep
  rename_i e hfe
  split at hstep
  · cases hstep
  rename_i top htop
  split at hstep
  · cases hstep
    exact ⟨e, top, hfe, htop, rfl⟩
  · cases hstep

/-- A continuing Boolean case determines the name scan, the stack read,
the payload byte and the successor state completely. -/
theorem caseBoolean_next (b : List Nat) (s s1 : DecState)
    (hstep : caseBoolean b s = StepRes.next s1) :
    ∃ e top v, findTerm b (s.idx + 1) = some e ∧ stkGet s.stk s.sp = some top ∧
      b[e + 1]? = some v ∧
      s1 = { s with
              idx := e + 2,
              out := s.out ++ emitName top ((b.drop (s.idx + 1)).take (e - (s.idx + 1)))
                ++ (if v = 1 then [116, 114, 117, 101] else [102, 97, 108, 115, 101]) } := by
  unfold caseBoolean at hstep
  split at hstep
  · cases hstep
  rename_i e hfe
  split at hstep
  · cases hstep
  rename_i top htop
  split at hstep
  · cases hstep
  rename_i v hbv
  cases hstep
  exact ⟨e, top, v, hfe, htop, hbv, rfl⟩

/-- A continuing UnixTimeMillis case determines the name scan, the stack
read and the successor state completely. -/
theorem caseUnixTimeMillis_next (ft : Nat → List Nat) (b : List Nat) (s s1 : DecState)
    (hstep : caseUnixTimeMillis ft b s = StepRes.next s1) :
    ∃ e top, findTerm b (s.idx + 1) = some e ∧ stkGet s.stk s.sp = some top ∧
      s1 = { s with
              idx := e + 9,
              out := s.out ++ emitName top ((b.drop (s.idx + 1)).take (e - (s.idx + 1)))
                ++ [34] ++ ft (leVal ((b.drop (e + 1)).take 8)) ++ [34] } := by
  unfold caseUnixTimeMillis at hstep
  split at hstep
  · cases hstep
  rename_i e hfe
  split at hstep
  · cases hstep
  rename_i top htop
  split at hstep
  · cases hstep
  rename_i v hlv
  cases hstep
  refine ⟨e, top, hfe, htop, ?_⟩
  unfold readLE at hlv
  split at hlv
  · cases hlv; rfl
  · cases hlv

/-- A continuing Null case determines the name scan, the stack read and
the successor state completely. -/
theorem caseNull_next (b : List Nat) (s s1 : DecState)
    (hstep : caseNull b s = StepRes.next s1) :
    ∃ e top, findTerm b (s.idx + 1) = some e ∧ stkGet s.stk s.sp = some top ∧
      s1 = { s with
              idx := e + 1,
              out := s.out ++ emitName top ((b.drop (s.idx + 1)).take (e - (s.idx + 1)))
                ++ [110, 117, 108, 108] } := by
  unfold caseNull at hstep
  split at hstep
  · cases hstep
  rename_i e hfe
  split at hstep
  · cases hstep
  rename_i top htop
  cases hstep
  exact ⟨e, top, hfe, htop, rfl⟩

/-- A continuing Int32 case determines the name scan, the stack read and
the successor state completely. -/
theorem caseInt32_next (b : List Nat) (s s1 : DecState)
    (hstep : caseInt32 b s = StepRes.next s1) :
    ∃ e top, findTerm b (s.idx + 1) = some e ∧ stkGet s.stk s.sp = some top ∧
      s1 = { s with
              idx := e + 5,
              out := s.out ++ emitName top ((b.drop (s.idx + 1)).take (e - (s.idx + 1)))
                ++ formatUint (leVal ((b.drop (e + 1)).take 4)) } := by
  unfold caseInt32 at hstep
  split at hstep
  · cases hstep
  rename_i e hfe
  split at hstep
  · cases hstep
  rename_i top htop
  split at hstep
  · cases hstep
  rename_i v hlv
  cases hstep
  refine ⟨e, top, hfe, htop, ?_⟩
  unfold readLE at hlv
  split at hlv
  · cases hlv; rfl
  · cases hlv

/-- A continuing Int64 case determines the name scan, the stack read and
the successor state completely. -/
theorem caseInt64_next (b : List Nat) (s s1 : DecState)
    (hstep : caseInt64 b s = StepRes.next s1) :
    ∃ e top, findTerm b (s.idx + 1) = some e ∧ stkGet s.stk s.sp = some top ∧
      s1 = { s with
              idx := e + 9,
              out := s.out ++ emitName top ((b.drop (s.idx + 1)).take (e - (s.idx + 1)))
                ++ formatUint (leVal ((b.drop (e + 1)).take 8)) } := by
  unfold caseInt64 at hstep
  split at hstep
  · cases hstep
  rename_i e hfe
  split at hstep
  · cases hstep
  rename_i top htop
  split at hstep
  · cases hstep
  rename_i v hlv
  cases hstep
  refine ⟨e, top, hfe, htop, ?_⟩
  unfold readLE at hlv
  split at hlv
  · cases hlv; rfl
  · cases hlv

/-- A one-byte take of a drop is the singleton of the byte the buffer
holds at that position. -/
theorem take_one_drop (b : List Nat) (i v : Nat) (h : b[i]? = some v) :
    (b.drop i).take 1 = [v] := by
  have hlt : i < b.length := by
    by_contra hc
    rw [List.getElem?_eq_none (by omega)] at h
    cases h
  rw [List.drop_eq_getElem_cons hlt]
  rw [List.getElem?_eq_getElem hlt] at h
  injection h with hv
  simp [hv]

/-- Claim C6: for every recognized element processed while the top
nesting frame is an array frame (the closing-bracket byte on top of the
stack), the switch advances the read cursor past the null-terminated
field name and appends to the output exactly the value text — a function
of the type tag and of the payload bytes lying strictly after the name
terminator — so no byte of the field name is ever written. -/
theorem c6_array_frame_elides_names (ff ft : Nat → List Nat) (b : List Nat)
    (s s1 : DecState) (t : Nat)
    (htag : b[s.idx]? = some t) (ht : t ≠ 0)
    (harr : stkGet s.stk s.sp = some 93)
    (hstep : switchStep ff ft b s = StepRes.next s1) :
    ∃ e, findTerm b (s.idx + 1) = some e ∧ e + 1 ≤ s1.idx ∧
      s1.out = s.out ++ valueEmit ff ft t (payloadSlice b t e) := by
  rw [switchStep_eq_of_tag ff ft b s t htag] at hstep
  by_cases h1 : t = 1
  · -- tag 1: Float64
    rw [if_pos h1] at hstep
    subst h1
    obtain ⟨e, top, hfe, htop, rfl⟩ := caseFloat64_next ff b s s1 hstep
    obtain rfl : top = 93 := Option.some.inj (htop.symm.trans harr)
    exact ⟨e, hfe, by show e + 1 ≤ e + 9; omega,
      by simp [valueEmit, payloadSlice, emitName]⟩
  rw [if_neg h1] at hstep
  by_cases h2 : t = 2
  · -- tag 2: String
    rw [if_pos h2] at hstep
    subst h2
    obtain ⟨e, top, hfe, htop, rfl⟩ := caseString_next b s s1 hstep
    obtain rfl : top = 93 := Option.some.inj (htop.symm.trans harr)
    exact ⟨e, hfe,
      by show e + 1 ≤ e + 5 + leVal ((b.drop (e + 1)).take 4); omega,
      by simp [valueEmit, payloadSlice, emitName]⟩
  rw [if_neg h2] at hstep
  by_cases h3 : t = 3
  · -- tag 3: Object
    rw [if_pos h3] at hstep
    subst h3
    obtain ⟨e, top, stk2, hfe, htop, hset, rfl⟩ := caseObject_next b s s1 hstep
    obtain rfl : top = 93 := Option.some.inj (htop.symm.trans harr)
    exact ⟨e, hfe, by show e + 1 ≤ e + 5; omega,
      by simp [valueEmit, payloadSlice, emitName]⟩
  rw [if_neg h3] at hstep
  by_cases h4 : t = 4
  · -- tag 4: Array
    rw [if_pos h4] at hstep
    subst h4
    obtain ⟨e, top, stk2, hfe, htop, hset, rfl⟩ := caseArray_next b s s1 hstep
    obtain rfl : top = 93 := Option.some.inj (htop.symm.trans harr)
    exact ⟨e, hfe, by show e + 1 ≤ e + 5; omega,
      by simp [valueEmit, payloadSlice, emitName]⟩
  rw [if_neg h4] at hstep
  by_cases h5 : t = 7
  · -- tag 7: ObjectId
    rw [if_pos h5] at hstep
    subst h5
    obtain ⟨e, top, hfe, htop, rfl⟩ := caseObjectId_next b s s1 hstep
    obtain rfl : top = 93 := Option.some.inj (htop.symm.trans harr)
    exact ⟨e, hfe, by show e + 1 ≤ e + 13; omega,
      by simp [valueEmit, payloadSlice, emitName]⟩
  rw [if_neg h5] at hstep
  by_cases h6 : t = 8
  · -- tag 8: Boolean
    rw [if_pos h6] at hstep
    subst h6
    obtain ⟨e, top, v, hfe, htop, hbv, rfl⟩ := caseBoolean_next b s s1 hstep
    obtain rfl : top = 93 := Option.some.inj (htop.symm.trans harr)
    have hp := take_one_drop b (e + 1) v hbv
    refine ⟨e, hfe, by show e + 1 ≤ e + 2; omega, ?_⟩
    by_cases hv1 : v = 1
    · simp [valueEmit, payloadSlice, emitName, hp, hv1]
    · simp [valueEmit, payloadSlice, emitName, hp, hv1]
  rw [if_neg h6] at hstep
  by_cases h7 : t = 9
  · -- tag 9: UnixTimeMillis
    rw [if_pos h7] at hstep
    subst h7
    obtain ⟨e, top, hfe, htop, rfl⟩ := caseUnixTimeMillis_next ft b s s1 hstep
    obtain rfl : top = 93 := Option.some.inj (htop.symm.trans harr)
    exact ⟨e, hfe, by show e + 1 ≤ e + 9; omega,
      by simp [valueEmit, payloadSlice, emitName]⟩
  rw [if_neg h7] at hstep
  by_cases h8 : t = 10
  · -- tag 10: Null
    rw [if_pos h8] at hstep
    subst h8
    obtain ⟨e, top, hfe, htop, rfl⟩ := caseNull_next b s s1 hstep
    obtain rfl : top = 93 := Option.some.inj (htop.symm.trans harr)
    exact ⟨e, hfe, by show e + 1 ≤ e + 1; omega,
      by simp [valueEmit, payloadSlice, emitName]⟩
  rw [if_neg h8] at hstep
  by_cases h9 : t = 16
  · -- tag 16: Int32
    rw [if_pos h9] at hstep
    subst h9
    obtain ⟨e, top, hfe, htop, rfl⟩ := caseInt32_next b s s1 hstep
    obtain rfl : top = 93 := Option.some.inj (htop.symm.trans harr)
    exact ⟨e, hfe, by show e + 1 ≤ e + 5; omega,
      by simp [valueEmit, payloadSlice, emitName]⟩
  rw [if_neg h9] at hstep
  by_cases h10 : t = 17
  · -- tag 17: Time, panics
    rw [if_pos h10] at hstep
    cases hstep
  rw [if_neg h10] at hstep
  by_cases h11 : t = 18
  · -- tag 18: Int64
    rw [if_pos h11] at hstep
    subst h11
    obtain ⟨e, top, hfe, htop, rfl⟩ := caseInt64_next b s s1 hstep
    obtain rfl : top = 93 := Option.some.inj (htop.symm.trans harr)
    exact ⟨e, hfe, by show e + 1 ≤ e + 9; omega,
      by simp [valueEmit, payloadSlice, emitName]⟩
  rw [if_neg h11] at hstep
  by_cases h12 : t = 19
  · -- tag 19: Dec128, panics
    rw [if_pos h12] at hstep
    cases hstep
  rw [if_neg h12] at hstep
  by_cases h13 : t = 0
  · -- tag 0: Terminal, excluded
    rw [if_pos h13] at hstep
    exact absurd h13 ht
  rw [if_neg h13] at hstep
  -- default: early return with the partial buffer, no next state
  cases hstep

/-- Witness for c6_array_frame_elides_names: a concrete state positioned
inside an array frame at an Int32 element carrying the numeric field
name 0 (byte 48); the step appends only the value text 42 — no name
byte reaches the output. -/
theorem c6_array_frame_elides_names_witness :
    ∃ e, findTerm [16, 48, 0, 42, 0, 0, 0] (0 + 1) = some e ∧ e + 1 ≤ 7 ∧
      [91, 52, 50]
        = [91] ++ valueEmit emptyFmt emptyFmt 16 (payloadSlice [16, 48, 0, 42, 0, 0, 0] 16 e) :=
  c6_array_frame_elides_names emptyFmt emptyFmt [16, 48, 0, 42, 0, 0, 0]
    ⟨0, [91], arrStack, 0⟩ ⟨7, [91, 52, 50], arrStack, 0⟩ 16 rfl (by decide) rfl rfl

/-- Claim C7: on every continuing loop iteration, after the switch has
emitted its value or closing delimiter, the loop appends a separating
comma exactly when input remains, the next input byte is not the
terminal byte, and the most recently emitted output byte is neither an
opening brace nor an opening bracket; when the condition fails the
buffer is left untouched. -/
theorem c7_comma_exactly_when (ff ft : Nat → List Nat) (b : List Nat) (s s1 : DecState)
    (h : switchStep ff ft b s = StepRes.next s1) :
    step ff ft b s = StepRes.next (withComma b s1)
    ∧ ((withComma b s1).out = s1.out ++ [44] ↔
        (s1.idx < b.length ∧ b[s1.idx]? ≠ some 0 ∧
          s1.out.getLast? ≠ some 123 ∧ s1.out.getLast? ≠ some 91))
    ∧ ((withComma b s1).idx = s1.idx) := by
  refine ⟨by simp [step, h], ?_, ?_⟩
  · by_cases hc : s1.idx < b.length ∧ b[s1.idx]? ≠ some 0 ∧
        s1.out.getLast? ≠ some 123 ∧ s1.out.getLast? ≠ some 91
    · rw [withComma, if_pos hc]
      exact iff_of_true rfl hc
    · rw [withComma, if_neg hc]
      exact iff_of_false (by simp) hc
  · rw [withComma]
    split <;> rfl

/-- Witness for c7_comma_exactly_when: a concrete document whose first
element is a null followed by a further tag byte; the comma condition
holds and the step appends the comma. -/
theorem c7_comma_exactly_when_witness :
    step emptyFmt emptyFmt [10, 97, 0, 1] ⟨0, [123], initStack, 0⟩
      = StepRes.next
          (withComma [10, 97, 0, 1] ⟨3, [123, 34, 97, 34, 58, 110, 117, 108, 108], initStack, 0⟩)
    ∧ ((withComma [10, 97, 0, 1] ⟨3, [123, 34, 97, 34, 58, 110, 117, 108, 108], initStack, 0⟩).out
        = [123, 34, 97, 34, 58, 110, 117, 108, 108] ++ [44] ↔
        (3 < ([10, 97, 0, 1] : List Nat).length ∧ ([10, 97, 0, 1] : List Nat)[3]? ≠ some 0 ∧
          ([123, 34, 97, 34, 58, 110, 117, 108, 108] : List Nat).getLast? ≠ some 123 ∧
          ([123, 34, 97, 34, 58, 110, 117, 108, 108] : List Nat).getLast? ≠ some 91))
    ∧ ((withComma [10, 97, 0, 1] ⟨3, [123, 34, 97, 34, 58, 110, 117, 108, 108], initStack, 0⟩).idx
        = 3) :=
  c7_comma_exactly_when emptyFmt emptyFmt [10, 97, 0, 1]
    ⟨0, [123], initStack, 0⟩ ⟨3, [123, 34, 97, 34, 58, 110, 117, 108, 108], initStack, 0⟩ rfl

/-- Reading the byte at the head of a drop. -/
theorem getElem?_of_drop_cons (b : List Nat) (i c : Nat) (l : List Nat)
    (h : b.drop i = c :: l) : b[i]? = some c := by
  have h0 : (b.drop i)[0]? = some c := by rw [h]; simp
  rwa [List.getElem?_drop, Nat.add_zero] at h0

/-- Advancing a drop equation by one position. -/
theorem drop_succ_of_drop_cons (b : List Nat) (i c : Nat) (l : List Nat)
    (h : b.drop i = c :: l) : b.drop (i + 1) = l := by
  have h1 : (b.drop i).drop 1 = l := by rw [h]; rfl
  rwa [List.drop_drop] at h1

/-- A nonempty drop means the position is inside the buffer. -/
theorem lt_length_of_drop_cons (b : List Nat) (i c : Nat) (l : List Nat)
    (h : b.drop i = c :: l) : i < b.length := by
  by_contra hc
  rw [List.drop_eq_nil_of_le (by omega)] at h
  cases h

/-- One unfolding of the decode loop on a continuing step. -/
theorem run_succ (ff ft : Nat → List Nat) (b : List Nat) (fuel : Nat) (s s1 : DecState)
    (h : s.idx < b.length) (hs : step ff ft b s = StepRes.next s1) :
    run ff ft b (fuel + 1) s = run ff ft b fuel s1 := by
  simp only [run]
  rw [if_pos h, hs]

/-- One unfolding of the decode loop at exit. -/
theorem run_exit (ff ft : Nat → List Nat) (b : List Nat) (fuel : Nat) (s : DecState)
    (h : ¬ s.idx < b.length) :
    run ff ft b (fuel + 1) s = Res.ok s.out := by
  simp only [run]
  rw [if_neg h]

/-- Processing one nested-object element of the deep document: the
switch pushes a closing-brace frame and emits the quoted name a, a colon
and an opening brace; the comma stage is inert because the last emitted
byte is the opening brace. -/
theorem step_deep_object (ff ft : Nat → List Nat) (b : List Nat) (s : DecState) (z : List Nat)
    (hdrop : b.drop s.idx = [3, 97, 0, 0, 0, 0, 0] ++ z)
    (hsp0 : 0 ≤ s.sp) (hsp : s.sp < 63)
    (htop : s.stk s.sp.toNat = 125) :
    step ff ft b s
      = StepRes.next
          ⟨s.idx + 7, (s.out ++ [34, 97, 34, 58]) ++ [123],
            Function.update s.stk (s.sp + 1).toNat 125, s.sp + 1⟩ := by
  have h0 : b[s.idx]? = some 3 := getElem?_of_drop_cons b s.idx 3 _ (by simpa using hdrop)
  have h1 : b.drop (s.idx + 1) = [97, 0, 0, 0, 0, 0] ++ z :=
    drop_succ_of_drop_cons b s.idx 3 _ (by simpa using hdrop)
  have hterm : findTerm b (s.idx + 1) = some (s.idx + 2) := by
    unfold findTerm
    rw [h1]
    simp [findTermAux]
  have hget : stkGet s.stk s.sp = some 125 := by
    unfold stkGet
    rw [if_pos ⟨hsp0, by omega⟩, htop]
  have hset : stkSet s.stk (s.sp + 1) 125
      = some (Function.update s.stk (s.sp + 1).toNat 125) := by
    unfold stkSet
    rw [if_pos ⟨by omega, by omega⟩]
  have hcount : s.idx + 2 - (s.idx + 1) = 1 := by omega
  have hsw : switchStep ff ft b s
      = StepRes.next
          ⟨s.idx + 7, (s.out ++ [34, 97, 34, 58]) ++ [123],
            Function.update s.stk (s.sp + 1).toNat 125, s.sp + 1⟩ := by
    rw [switchStep_eq_of_tag ff ft b s 3 h0]
    rw [if_neg (by decide), if_neg (by decide), if_pos rfl]
    unfold caseObject
    rw [hterm, hget, hset]
    simp [hcount, h1, emitName]
  have hwc : withComma b
      (⟨s.idx + 7, (s.out ++ [34, 97, 34, 58]) ++ [123],
        Function.update s.stk (s.sp + 1).toNat 125, s.sp + 1⟩ : DecState)
      = ⟨s.idx + 7, (s.out ++ [34, 97, 34, 58]) ++ [123],
          Function.update s.stk (s.sp + 1).toNat 125, s.sp + 1⟩ := by
    unfold withComma
    rw [if_neg]
    intro hcond
    exact hcond.2.2.1 (by rw [List.getLast?_concat])
  unfold step
  rw [hsw]
  exact congrArg StepRes.next hwc

/-- Processing one terminal byte of the deep document while every frame
at or below the pointer holds a closing brace: the pop emits the closing
brace; the comma stage is inert because either the input is exhausted or
the next byte is another terminal. -/
theorem step_deep_terminal (ff ft : Nat → List Nat) (b : List Nat) (s : DecState) (z : List Nat)
    (hdrop : b.drop s.idx = 0 :: z)
    (hz : z = [] ∨ ∃ c z2, z = c :: z2 ∧ c = 0)
    (hsp0 : 0 ≤ s.sp) (hsp : s.sp < 64)
    (htop : s.stk s.sp.toNat = 125) :
    step ff ft b s
      = StepRes.next
          ⟨s.idx + 1, s.out ++ [125], Function.update s.stk s.sp.toNat 0, s.sp - 1⟩ := by
  have h0 : b[s.idx]? = some 0 := getElem?_of_drop_cons b s.idx 0 z hdrop
  have hget : stkGet s.stk s.sp = some 125 := by
    unfold stkGet
    rw [if_pos ⟨hsp0, by omega⟩, htop]
  have hset : stkSet s.stk s.sp 0 = some (Function.update s.stk s.sp.toNat 0) := by
    unfold stkSet
    rw [if_pos ⟨hsp0, by omega⟩]
  have hsw : switchStep ff ft b s
      = StepRes.next
          ⟨s.idx + 1, s.out ++ [125], Function.update s.stk s.sp.toNat 0, s.sp - 1⟩ := by
    rw [switchStep_eq_of_tag ff ft b s 0 h0]
    rw [if_neg (by decide), if_neg (by decide), if_neg (by decide), if_neg (by decide),
      if_neg (by decide), if_neg (by decide), if_neg (by decide), if_neg (by decide),
      if_neg (by decide), if_neg (by decide), if_neg (by decide), if_neg (by decide),
      if_pos rfl]
    unfold caseTerminal
    rw [hget, hset]
  have hwc : withComma b
      (⟨s.idx + 1, s.out ++ [125], Function.update s.stk s.sp.toNat 0, s.sp - 1⟩ : DecState)
      = ⟨s.idx + 1, s.out ++ [125], Function.update s.stk s.sp.toNat 0, s.sp - 1⟩ := by
    unfold withComma
    rw [if_neg]
    rcases hz with hz | ⟨c, z2, hz, hc⟩
    · intro hcond
      have hlt : s.idx + 1 < b.length := hcond.1
      have hlend := congrArg List.length hdrop
      rw [List.length_drop, hz] at hlend
      simp at hlend
      omega
    · intro hcond
      subst hc
      have h2 : b[s.idx + 1]? ≠ some 0 := hcond.2.1
      exact h2 (getElem?_of_drop_cons b (s.idx + 1) 0 z2
        (by rw [drop_succ_of_drop_cons b s.idx 0 z hdrop, hz]))
  unfold step
  rw [hsw]
  exact congrArg StepRes.next hwc

/-- Dropping a known prefix of a drop. -/
theorem drop_append_of_drop (b : List Nat) (i : Nat) (l1 l2 : List Nat)
    (h : b.drop i = l1 ++ l2) : b.drop (i + l1.length) = l2 := by
  have h2 : (b.drop i).drop l1.length = l2 := by
    rw [h]
    exact List.drop_left l1 l2
  rwa [List.drop_drop] at h2

/-- The nested-document body is k object-element blocks followed by the
k + 1 terminal bytes of the k + 1 enclosing documents. -/
theorem nestBody_decomp (k : Nat) :
    nestBody k
      = (List.replicate k [3, 97, 0, 0, 0, 0, 0]).flatten ++ List.replicate (k + 1) 0 := by
  induction k with
  | zero => rfl
  | succ k ih =>
    have hA : (List.replicate (k + 1) ([3, 97, 0, 0, 0, 0, 0] : List Nat)).flatten
        = [3, 97, 0, 0, 0, 0, 0] ++ (List.replicate k [3, 97, 0, 0, 0, 0, 0]).flatten := by
      rw [List.replicate_succ, List.flatten_cons]
    have hB : List.replicate (k + 1 + 1) (0 : Nat) = List.replicate (k + 1) 0 ++ [0] := by
      rw [List.replicate_succ']
    show [3, 97, 0, 0, 0, 0, 0] ++ nestBody k ++ [0] = _
    rw [ih, hA, hB]
    simp [List.append_assoc]

/-- Length of the nested body. -/
theorem nestBody_length (k : Nat) : (nestBody k).length = 8 * k + 1 := by
  induction k with
  | zero => rfl
  | succ k ih => simp [nestBody, ih]; omega

theorem openText_succ (k : Nat) :
    openText (k + 1) = [34, 97, 34, 58, 123] ++ openText k := by
  simp [openText, List.replicate_succ]

/-- Running the loop over k consecutive nested-object elements: every
push succeeds while the stack pointer stays at most 63, the emitted text
is k copies of the quoted name, colon and opening brace, and every frame
at or below the new pointer holds the closing-brace byte. -/
theorem run_deep_opens (ff ft : Nat → List Nat) (b : List Nat) :
    ∀ (k fuel : Nat) (s : DecState) (z : List Nat),
      b.drop s.idx = (List.replicate k [3, 97, 0, 0, 0, 0, 0]).flatten ++ z →
      0 ≤ s.sp → s.sp + k ≤ 63 →
      (∀ i : Nat, (i : Int) ≤ s.sp → s.stk i = 125) →
      ∃ stk2 : Nat → Nat,
        run ff ft b (k + fuel) s
          = run ff ft b fuel ⟨s.idx + 7 * k, s.out ++ openText k, stk2, s.sp + k⟩
        ∧ (∀ i : Nat, (i : Int) ≤ s.sp + k → stk2 i = 125) := by
  intro k
  induction k with
  | zero =>
    intro fuel s z hdrop hsp0 hsp hstk
    refine ⟨s.stk, ?_, by simpa using hstk⟩
    simp [openText]
  | succ k ih =>
    intro fuel s z hdrop hsp0 hsp hstk
    rw [List.replicate_succ, List.flatten_cons, List.append_assoc] at hdrop
    have hstep := step_deep_object ff ft b s _ hdrop hsp0 (by omega)
      (hstk s.sp.toNat (by omega))
    have hlt : s.idx < b.length := lt_length_of_drop_cons b s.idx 3 _ (by simpa using hdrop)
    have hdrop1 : b.drop (s.idx + 7)
        = (List.replicate k [3, 97, 0, 0, 0, 0, 0]).flatten ++ z := by
      have := drop_append_of_drop b s.idx [3, 97, 0, 0, 0, 0, 0] _ hdrop
      simpa using this
    obtain ⟨stk2, hrun2, hinv2⟩ := ih fuel
      ⟨s.idx + 7, (s.out ++ [34, 97, 34, 58]) ++ [123],
        Function.update s.stk (s.sp + 1).toNat 125, s.sp + 1⟩
      z hdrop1 (by dsimp only; omega) (by dsimp only; omega)
      (by
        dsimp only
        intro i hi
        rcases eq_or_ne i ((s.sp + 1).toNat) with he | hne
        · rw [he, Function.update_same]
        · rw [Function.update_noteq hne]
          exact hstk i (by omega))
    dsimp only at hrun2 hinv2
    have hf : k + 1 + fuel = (k + fuel) + 1 := by omega
    refine ⟨stk2, ?_, ?_⟩
    · rw [hf, run_succ ff ft b (k + fuel) s _ hlt hstep, hrun2]
      have hstate : (⟨s.idx + 7 + 7 * k, ((s.out ++ [34, 97, 34, 58]) ++ [123]) ++ openText k,
            stk2, s.sp + 1 + k⟩ : DecState)
          = ⟨s.idx + 7 * (k + 1), s.out ++ openText (k + 1), stk2, s.sp + (k + 1 : Nat)⟩ := by
        have h1 : s.idx + 7 + 7 * k = s.idx + 7 * (k + 1) := by ring
        have h2 : ((s.out ++ [34, 97, 34, 58]) ++ [123]) ++ openText k
            = s.out ++ openText (k + 1) := by
          rw [openText_succ]
          simp
        have h3 : s.sp + 1 + (k : Int) = s.sp + ((k : Nat) + 1 : Nat) := by push_cast; ring
        rw [h1, h2, h3]
      exact congrArg (run ff ft b fuel) hstate
    · intro i hi
      exact hinv2 i (by push_cast at hi ⊢; omega)

/-- Running the loop over the m terminal bytes that close the m open
frames: every pop succeeds, emits a closing brace, and the loop then
exits with the finished buffer. -/
theorem run_deep_closes (ff ft : Nat → List Nat) (b : List Nat) :
    ∀ (m fuel : Nat) (s : DecState),
      b.drop s.idx = List.replicate m 0 →
      s.sp + 1 = (m : Int) →
      s.sp < 64 →
      (∀ i : Nat, (i : Int) ≤ s.sp → s.stk i = 125) →
      run ff ft b (m + (fuel + 1)) s = Res.ok (s.out ++ List.replicate m 125) := by
  intro m
  induction m with
  | zero =>
    intro fuel s hdrop hsp hsp64 hstk
    have hlen := congrArg List.length hdrop
    rw [List.length_drop] at hlen
    simp at hlen
    rw [Nat.zero_add, run_exit ff ft b fuel s (by omega)]
    simp
  | succ m ih =>
    intro fuel s hdrop hsp hsp64 hstk
    rw [List.replicate_succ] at hdrop
    have hz : List.replicate m 0 = []
        ∨ ∃ c z2, List.replicate m 0 = c :: z2 ∧ c = 0 := by
      cases m with
      | zero => exact Or.inl rfl
      | succ m2 => exact Or.inr ⟨0, List.replicate m2 0, by rw [List.replicate_succ], rfl⟩
    have hsp0 : 0 ≤ s.sp := by omega
    have hstep := step_deep_terminal ff ft b s _ hdrop hz hsp0 hsp64
      (hstk s.sp.toNat (by omega))
    have hlt : s.idx < b.length := lt_length_of_drop_cons b s.idx 0 _ hdrop
    have hdrop1 : b.drop (s.idx + 1) = List.replicate m 0 :=
      drop_succ_of_drop_cons b s.idx 0 _ hdrop
    have hf : m + 1 + (fuel + 1) = (m + (fuel + 1)) + 1 := by omega
    rw [hf, run_succ ff ft b (m + (fuel + 1)) s _ hlt hstep]
    have hrec := ih fuel
      ⟨s.idx + 1, s.out ++ [125], Function.update s.stk s.sp.toNat 0, s.sp - 1⟩
      hdrop1 (by dsimp only; push_cast at hsp ⊢; omega) (by dsimp only; omega)
      (by
        dsimp only
        intro i hi
        have hne : i ≠ s.sp.toNat := by omega
        rw [Function.update_noteq hne]
        exact hstk i (by omega))
    dsimp only at hrec
    rw [hrec]
    have hout : (s.out ++ [125]) ++ List.replicate m 125
        = s.out ++ List.replicate (m + 1) 125 := by
      rw [List.replicate_succ]
      simp
    rw [hout]

/-- The one deep-document step that dies: an object element reached with
the stack pointer already at 63 — the unchecked 64th push writes
stack[64], out of range. -/
theorem step_deep_object_overflow (ff ft : Nat → List Nat) (b : List Nat) (s : DecState)
    (z : List Nat)
    (hdrop : b.drop s.idx = [3, 97, 0, 0, 0, 0, 0] ++ z)
    (hsp : s.sp = 63)
    (htop : s.stk s.sp.toNat = 125) :
    step ff ft b s = StepRes.oob := by
  have h0 : b[s.idx]? = some 3 := getElem?_of_drop_cons b s.idx 3 _ (by simpa using hdrop)
  have h1 : b.drop (s.idx + 1) = [97, 0, 0, 0, 0, 0] ++ z :=
    drop_succ_of_drop_cons b s.idx 3 _ (by simpa using hdrop)
  have hterm : findTerm b (s.idx + 1) = some (s.idx + 2) := by
    unfold findTerm
    rw [h1]
    simp [findTermAux]
  have hget : stkGet s.stk s.sp = some 125 := by
    unfold stkGet
    rw [if_pos ⟨by omega, by omega⟩, htop]
  have hset : stkSet s.stk (s.sp + 1) 125 = none := by
    unfold stkSet
    rw [if_neg]
    intro hcond
    omega
  have hsw : switchStep ff ft b s = StepRes.oob := by
    rw [switchStep_eq_of_tag ff ft b s 3 h0]
    rw [if_neg (by decide), if_neg (by decide), if_pos rfl]
    unfold caseObject
    rw [hterm, hget, hset]
  unfold step
  rw [hsw]

/-- One unfolding of the decode loop on a step that panics with an index
out of range. -/
theorem run_oob (ff ft : Nat → List Nat) (b : List Nat) (fuel : Nat) (s : DecState)
    (h : s.idx < b.length) (hs : step ff ft b s = StepRes.oob) :
    run ff ft b (fuel + 1) s = Res.indexPanic := by
  simp only [run]
  rw [if_pos h, hs]

set_option maxHeartbeats 1000000 in
/-- Claim C4 is half right and half false on the code (code bug): the
document nesting 64 levels decodes normally — the stack pointer never
exceeds 63, so the depth bound itself holds — but the document nesting
65 levels does not produce an explicit bounds error: the unchecked 64th
push of the decode loop writes stack[64] on the fixed 64-byte array and
dies with a runtime index-out-of-range panic. -/
theorem c4_sixtyfifth_level_panics :
    (∀ ff ft : Nat → List Nat, ToJson ff ft (deepDoc 63) = Res.ok (deepOut 63))
    ∧ (∀ ff ft : Nat → List Nat, ToJson ff ft (deepDoc 64) = Res.indexPanic) := by
  constructor
  · intro ff ft
    have hlen : (deepDoc 63).length = 509 := by
      simp [deepDoc, nestBody_length]
    have hdrop0 : (deepDoc 63).drop 4 = nestBody 63 := by
      have h := drop_append_of_drop (deepDoc 63) 0 [0, 0, 0, 0] (nestBody 63)
        (by simp [deepDoc])
      simpa using h
    have hdrop : (deepDoc 63).drop 4
        = (List.replicate 63 [3, 97, 0, 0, 0, 0, 0]).flatten ++ List.replicate 64 0 := by
      rw [hdrop0, nestBody_decomp]
    have hfl : ((List.replicate 63 ([3, 97, 0, 0, 0, 0, 0] : List Nat)).flatten).length
        = 441 := by
      simp
    unfold ToJson
    rw [if_neg (by omega), hlen]
    have h510 : (509 : Nat) + 1 = 63 + 447 := by norm_num
    rw [h510]
    have hinit : initState = (⟨4, [123], initStack, 0⟩ : DecState) := rfl
    rw [hinit]
    obtain ⟨stk2, hrun, hinv⟩ := run_deep_opens ff ft (deepDoc 63) 63 447
      ⟨4, [123], initStack, 0⟩ (List.replicate 64 0)
      (by dsimp only; exact hdrop) (by dsimp only; omega) (by dsimp only; omega)
      (by
        dsimp only
        intro i hi
        have h0 : i = 0 := by omega
        rw [h0]
        rfl)
    dsimp only at hrun hinv
    norm_num at hrun hinv
    rw [hrun]
    have hdrop2 : (deepDoc 63).drop 445 = List.replicate 64 0 := by
      have h := drop_append_of_drop (deepDoc 63) 4
        ((List.replicate 63 [3, 97, 0, 0, 0, 0, 0]).flatten) (List.replicate 64 0) hdrop
      rw [hfl] at h
      norm_num at h
      exact h
    have h447 : (447 : Nat) = 64 + (382 + 1) := by norm_num
    rw [h447]
    have hclose := run_deep_closes ff ft (deepDoc 63) 64 382
      ⟨445, 123 :: openText 63, stk2, 63⟩
      (by dsimp only; exact hdrop2) (by dsimp only; norm_num) (by dsimp only; norm_num)
      (by
        dsimp only
        intro i hi
        exact hinv i (by omega))
    dsimp only at hclose
    rw [hclose]
    have hout : (123 :: openText 63) ++ List.replicate 64 125 = deepOut 63 := by
      simp [deepOut, openText]
    rw [hout]
  · intro ff ft
    have hlen : (deepDoc 64).length = 517 := by
      simp [deepDoc, nestBody_length]
    have hdrop0 : (deepDoc 64).drop 4 = nestBody 64 := by
      have h := drop_append_of_drop (deepDoc 64) 0 [0, 0, 0, 0] (nestBody 64)
        (by simp [deepDoc])
      simpa using h
    have hrep : List.replicate 64 ([3, 97, 0, 0, 0, 0, 0] : List Nat)
        = List.replicate 63 [3, 97, 0, 0, 0, 0, 0] ++ [[3, 97, 0, 0, 0, 0, 0]] := by
      have h64 : (64 : Nat) = 63 + 1 := by norm_num
      rw [h64, List.replicate_succ']
    have hdrop : (deepDoc 64).drop 4
        = (List.replicate 63 [3, 97, 0, 0, 0, 0, 0]).flatten
          ++ ([3, 97, 0, 0, 0, 0, 0] ++ List.replicate 65 0) := by
      rw [hdrop0, nestBody_decomp, hrep]
      simp [List.append_assoc]
    unfold ToJson
    rw [if_neg (by omega), hlen]
    have h518 : (517 : Nat) + 1 = 63 + 455 := by norm_num
    rw [h518]
    have hinit : initState = (⟨4, [123], initStack, 0⟩ : DecState) := rfl
    rw [hinit]
    obtain ⟨stk2, hrun, hinv⟩ := run_deep_opens ff ft (deepDoc 64) 63 455
      ⟨4, [123], initStack, 0⟩ ([3, 97, 0, 0, 0, 0, 0] ++ List.replicate 65 0)
      (by dsimp only; exact hdrop) (by dsimp only; omega) (by dsimp only; omega)
      (by
        dsimp only
        intro i hi
        have h0 : i = 0 := by omega
        rw [h0]
        rfl)
    dsimp only at hrun hinv
    norm_num at hrun hinv
    rw [hrun]
    have hfl : ((List.replicate 63 ([3, 97, 0, 0, 0, 0, 0] : List Nat)).flatten).length
        = 441 := by
      simp
    have hdrop2 : (deepDoc 64).drop 445
        = [3, 97, 0, 0, 0, 0, 0] ++ List.replicate 65 0 := by
      have h := drop_append_of_drop (deepDoc 64) 4
        ((List.replicate 63 [3, 97, 0, 0, 0, 0, 0]).flatten)
        ([3, 97, 0, 0, 0, 0, 0] ++ List.replicate 65 0) hdrop
      rw [hfl] at h
      norm_num at h
      exact h
    have hstep := step_deep_object_overflow ff ft (deepDoc 64)
      ⟨445, 123 :: openText 63, stk2, 63⟩ (List.replicate 65 0)
      (by dsimp only; exact hdrop2) (by dsimp only) 
      (by dsimp only; exact hinv 63 (by norm_num))
    have hlt : (445 : Nat) < (deepDoc 64).length := by omega
    have h455 : (455 : Nat) = 454 + 1 := by norm_num
    rw [h455]
    exact run_oob ff ft (deepDoc 64) 454 ⟨445, 123 :: openText 63, stk2, 63⟩ hlt hstep

end Bsoncv

namespace Store

/-- Claim C9: the driver wrapper FindOne converts the underlying
ErrNoDocuments condition into a successful nil-error result, passes a
nil driver error through as nil, and returns every other driver error to
the caller, stack-wrapped. -/
theorem c9_findone_no_documents_is_success :
    (Store.FindOne (some MongoErr.errNoDocuments)).2 = none
    ∧ (Store.FindOne none).2 = none
    ∧ (∀ msg : List Nat,
        (Store.FindOne (some (MongoErr.otherErr msg))).2
          = some (WrapErr.withStack (MongoErr.otherErr msg))) :=
  ⟨rfl, rfl, fun _ => rfl⟩

end Store
